import Mathlib

/-!
Verification of the CollaborList real-time synchronization and ordering engine.

This file gives a shallow embedding of the relevant parts of the repository:

* the drag-and-drop ordering engine of the client
  (`src/frontend/src/App.jsx`, `handleDragEnd` and its `isDescendant` helper),
* the client reconciliation handlers for the `item-created`, `item-updated`
  and `item-deleted` broadcast events (`App.jsx`, the `socket.on` handlers),
* the optimistic `createItem` flow of the client (`App.jsx`, `createItem`),
* the server request handlers of `backend/server.js` / `realtime-server.js`
  (item and list CRUD, share grant/revoke), abstracted to their sequencing of
  database queries and broadcast emissions,
* the `PUT /api/items/:id` column-update logic of the server.

JavaScript machine integers fit in doubles here, so item positions are
modelled as `Int`; `Math.floor((a + b) / 2)` on integers is `Int.fdiv (a + b) 2`.
JavaScript ids are either numbers (server-assigned) or strings (client-side
temporary ids `temp-...`); they are modelled by the sum type `ItemId`.
`Array.prototype.sort` is stable, so sorting by the comparator
`(a, b) => a.position - b.position` is modelled by a stable insertion sort
with the relation `a.position ≤ b.position`.
-/

/-- An item identifier: a number (server-assigned) or a string
(client temporary id such as `temp-17`).  JavaScript `===` on these values is
plain decidable equality; a number is never `===` a string. -/
inductive ItemId where
  | num (n : Int)
  | str (s : String)
deriving DecidableEq, Inhabited

/-- A list item as held in the client's `items` state (the columns of
`list_items` that the client code reads). -/
structure Item where
  id : ItemId
  list_id : Int
  text : String
  completed : Bool
  notes : Option String
  parent_id : Option ItemId
  position : Int
deriving DecidableEq, Inhabited

/-- JavaScript stable sort with comparator `(a, b) => a.position - b.position`,
modelled as a stable insertion sort by `position`. -/
def sortByPosition (l : List Item) : List Item :=
  List.insertionSort (fun a b => a.position ≤ b.position) l

/-- The client's `items.find(item => item.id === wanted)`. -/
def findItem (items : List Item) (wanted : ItemId) : Option Item :=
  items.find? (fun it => decide (it.id = wanted))

/-- Fuelled ancestor-chain walk.  The JavaScript `isDescendant` recursion
walks `childItem.parent_id` upwards through `items`; on acyclic data its depth
is bounded by the number of items, which is the fuel used below. -/
def isDescendantAux (items : List Item) (parentId : ItemId) : Item → Nat → Bool
  | _, 0 => false
  | childItem, fuel + 1 =>
    match childItem.parent_id with
    | none => false
    | some pid =>
      if pid = parentId then true
      else
        match findItem items pid with
        | some parent => isDescendantAux items parentId parent fuel
        | none => false

/-- `isDescendant(parentItem, childItem)` from `handleDragEnd`: is
`childItem` a descendant of `parentItem` via the `parent_id` chain? -/
def isDescendant (items : List Item) (parentItem childItem : Item) : Bool :=
  isDescendantAux items parentItem.id childItem items.length

/-- The sorted sibling list used by `handleDragEnd`:
`items.filter(item => item.parent_id === newParentId).sort((a, b) => a.position - b.position)`. -/
def sortedSiblingsOf (items : List Item) (newParentId : Option ItemId) : List Item :=
  sortByPosition (items.filter (fun it => decide (it.parent_id = newParentId)))

/-- The gap constant `GAP = 1000` of `handleDragEnd`. -/
def GAP : Int := 1000

/-- The position computation of `handleDragEnd` (App.jsx lines 2096-2131):
given the sorted sibling list of the target parent, the drop target `overItem`
and the direction flag `droppingAbove = delta.y < 0`, compute the new integer
position. -/
def computeNewPosition (siblings : List Item) (overItem : Item)
    (droppingAbove : Bool) : Int :=
  let overIndex := siblings.findIdx (fun s => decide (s.id = overItem.id))
  if droppingAbove then
    if overIndex = 0 then
      max 0 (overItem.position - GAP)
    else
      let prevItem := siblings.getD (overIndex - 1) default
      let midpoint := (prevItem.position + overItem.position).fdiv 2
      if midpoint = prevItem.position then prevItem.position + 1 else midpoint
  else
    if overIndex = siblings.length - 1 then
      overItem.position + GAP
    else
      let nextItem := siblings.getD (overIndex + 1) default
      let midpoint := (overItem.position + nextItem.position).fdiv 2
      if midpoint = overItem.position then overItem.position + 1 else midpoint

/-- The externally visible outcome of one `handleDragEnd` run: no action, a
user-facing error message, or the body of the `PUT /api/items/:id` request the
client sends (a nest request carries `parent_id`/`list_id` only; a sibling
move carries `parent_id`, `position` and `list_id`). -/
inductive DragResult where
  | noop
  | error (msg : String)
  | putNest (itemId : ItemId) (parentId : ItemId) (listId : Int)
  | putMove (itemId : ItemId) (parentId : Option ItemId) (position : Int) (listId : Int)
deriving DecidableEq

/-- The `handleDragEnd` handler of App.jsx, as a function of the current
`items` state, the dragged id, the drop target id (`none` when there is no
droppable under the pointer), the shift-key flag and the drag delta. -/
def handleDragEnd (items : List Item) (activeId : ItemId) (overId? : Option ItemId)
    (shiftKey : Bool) (deltaX deltaY : Int) : DragResult :=
  match overId? with
  | none => .noop
  | some overId =>
    if activeId = overId then .noop
    else
      match findItem items activeId with
      | none => .noop
      | some activeItem =>
        match findItem items overId with
        | none => .noop
        | some overItem =>
          if activeItem.id = overItem.id then .noop
          else if isDescendant items activeItem overItem then
            .error "Cannot move item into its own sub-item"
          else if shiftKey || decide (deltaX > 40) then
            .putNest activeItem.id overItem.id overItem.list_id
          else
            let newParentId := overItem.parent_id
            let droppingAbove := decide (deltaY < 0)
            let siblings := sortedSiblingsOf items newParentId
            let newPosition := computeNewPosition siblings overItem droppingAbove
            if activeItem.parent_id ≠ newParentId ∨ activeItem.position ≠ newPosition then
              .putMove activeItem.id newParentId newPosition overItem.list_id
            else .noop

/-- Effect of a sibling-move `PUT` on the client's item list (the moved item
takes the requested parent and position; every other item is untouched). -/
def applyMove (items : List Item) (movedId : ItemId) (newParent : Option ItemId)
    (newPos : Int) : List Item :=
  items.map (fun it =>
    if it.id = movedId then { it with parent_id := newParent, position := newPos } else it)

/-- No two distinct items under the same parent carry the same position. -/
def siblingPositionsDistinct (items : List Item) : Prop :=
  ∀ a ∈ items, ∀ b ∈ items, a.id ≠ b.id → a.parent_id = b.parent_id →
    a.position ≠ b.position

instance (items : List Item) : Decidable (siblingPositionsDistinct items) :=
  inferInstanceAs (Decidable (∀ a ∈ items, ∀ b ∈ items, a.id ≠ b.id →
    a.parent_id = b.parent_id → a.position ≠ b.position))

instance : DecidableRel (fun a b : Item => a.position ≤ b.position) :=
  fun a b => Int.decLe a.position b.position

instance : IsTotal Item (fun a b => a.position ≤ b.position) :=
  ⟨fun a b => Int.le_total a.position b.position⟩

instance : IsTrans Item (fun a b => a.position ≤ b.position) :=
  ⟨fun _ _ _ h1 h2 => le_trans h1 h2⟩

/-- Headroom condition for one sibling-level drop, read off the same sorted
sibling list and target index that `handleDragEnd` uses: when inserting
between two siblings their positions must differ by at least 2, and when
inserting above the head of the list the head position must be positive.
Dropping below the tail needs no headroom. -/
def moveHasHeadroom (items : List Item) (overId : ItemId) (dy : Int) : Bool :=
  match findItem items overId with
  | none => false
  | some over =>
    let sibs := sortedSiblingsOf items over.parent_id
    let i := sibs.findIdx (fun s => decide (s.id = over.id))
    if decide (dy < 0) then
      (if i = 0 then decide (1 ≤ over.position)
       else decide ((sibs.getD (i - 1) default).position + 2 ≤ over.position))
    else
      (if i = sibs.length - 1 then true
       else decide (over.position + 2 ≤ (sibs.getD (i + 1) default).position))

/-- Convenience constructor for concrete test items (list 7, numeric ids). -/
def mkNumItem (n : Int) (pid : Option ItemId) (pos : Int) : Item :=
  { id := .num n, list_id := 7, text := "x", completed := false, notes := none,
    parent_id := pid, position := pos }

/-- Three top-level siblings with strictly increasing positions 0, 1, 5. -/
def exC1 : List Item := [mkNumItem 1 none 0, mkNumItem 2 none 1, mkNumItem 3 none 5]

/-- Three top-level siblings with ample headroom: positions 0, 10, 100. -/
def exC1W : List Item := [mkNumItem 1 none 0, mkNumItem 2 none 10, mkNumItem 3 none 100]

/-- A parent (id 1) with one child (id 2) nested under it. -/
def exC2W : List Item := [mkNumItem 1 none 0, mkNumItem 2 (some (.num 1)) 1]

/-- A single top-level item at position 500 with one child. -/
def exC3 : List Item := [mkNumItem 1 none 500, mkNumItem 2 (some (.num 1)) 3]

/-- Three top-level siblings at positions 0, 10, 100 (witness data). -/
def exC3W : List Item := [mkNumItem 1 none 0, mkNumItem 2 none 10, mkNumItem 3 none 100]

/-- Modelled from the spec (section 4.3): the midpoint integer between the two
flanking positions, falling back to the lower flank plus one when there is no
integer headroom. -/
def midpointOrAdjacent (lo hi : Int) : Int :=
  if (lo + hi).fdiv 2 = lo then lo + 1 else (lo + hi).fdiv 2

/-- Modelled from the spec (section 4.3), amended by the clamp the code
applies: the position contract for a sibling-level drop.  Dropping between
two flanking siblings yields their `midpointOrAdjacent`; dropping below the
tail yields tail position plus 1000; dropping above the head yields
`max 0 (head position - 1000)` (the spec says head minus the gap; the code
clamps at zero). -/
def specDragPositionContract (sibs : List Item) (over : Item) (dy p : Int) : Prop :=
  let i := sibs.findIdx (fun s => decide (s.id = over.id))
  if decide (dy < 0) then
    (if i = 0 then p = max 0 (over.position - 1000)
     else p = midpointOrAdjacent (sibs.getD (i - 1) default).position over.position)
  else
    (if i = sibs.length - 1 then p = over.position + 1000
     else p = midpointOrAdjacent over.position (sibs.getD (i + 1) default).position)

/-- The temp-item test of the `item-created` handler:
`typeof item.id === 'string' && item.id.startsWith('temp-') && item.text === data.item.text`.
`String.startsWith` is modelled over the character list (same semantics,
kernel-reducible). -/
def isTempTextMatch (srvText : String) (it : Item) : Bool :=
  match it.id with
  | .str s => decide (s.toList.take 5 = "temp-".toList) && decide (it.text = srvText)
  | .num _ => false

/-- The `socket.on('item-created')` handler of App.jsx (lines 1419-1445),
acting on the `items` state.  `sel` is `selectedListRef.current?.id`. -/
def itemCreatedHandler (sel : Option Int) (listId : Int) (srvItem : Item)
    (st : List Item) : List Item :=
  if sel = some listId then
    if (st.find? (fun it => decide (it.id = srvItem.id))).isSome then st
    else
      match st.find? (isTempTextMatch srvItem.text) with
      | some tempItem => st.map (fun it => if it.id = tempItem.id then srvItem else it)
      | none => sortByPosition (st ++ [srvItem])
  else st

/-- The `socket.on('item-updated')` handler of App.jsx (lines 1447-1472),
acting on the `items` state.  `pendingNotes id` models
`notesDebounceTimeout.current[id] !== undefined`. -/
def itemUpdatedHandler (sel : Option Int) (listId : Int) (srvItem : Item)
    (pendingNotes : ItemId → Bool) (st : List Item) : List Item :=
  if sel = some listId then
    st.map (fun it =>
      if it.id = srvItem.id then
        (if pendingNotes it.id then { srvItem with notes := it.notes } else srvItem)
      else it)
  else st

/-- JavaScript loose equality `==` between two ids, as used by the
`item-deleted` handler (`item.id != data.itemId` where `data.itemId` is the
route-parameter string): numbers and digit strings compare by value. -/
def looseIdEq : ItemId → ItemId → Bool
  | .num a, .num b => decide (a = b)
  | .str a, .str b => decide (a = b)
  | .num a, .str b => decide (toString a = b)
  | .str a, .num b => decide (a = toString b)

/-- The `socket.on('item-deleted')` handler of App.jsx (lines 1474-1499),
acting on the `items` state. -/
def itemDeletedHandler (sel : Option Int) (listId : Int) (delId : ItemId)
    (st : List Item) : List Item :=
  if sel = some listId then
    let filtered := st.filter (fun it => ! looseIdEq it.id delId)
    if filtered.length ≠ st.length then filtered else st
  else st

/-- The optimistic insert of `createItem` (App.jsx lines 1782-1839):
`setItems(prev => [...prev, tempItem])`. -/
def optimisticCreate (st : List Item) (tempItem : Item) : List Item :=
  st ++ [tempItem]

/-- The rollback of `createItem` on request failure:
`setItems(prev => prev.filter(item => item.id !== tempItem.id))`. -/
def createItemRollback (st : List Item) (tempId : ItemId) : List Item :=
  st.filter (fun it => decide (it.id ≠ tempId))

/-- The whole failure path of `createItem`: optimistic insert, then rollback,
then the surfaced error message (403 or generic). -/
def createItemFailure (st : List Item) (tempItem : Item) (status403 : Bool) :
    List Item × String :=
  (createItemRollback (optimisticCreate st tempItem) tempItem.id,
   if status403 then "You only have view permission for this list"
   else "Failed to create item")

/-- A state already holding an item whose id is the string `temp-1`. -/
def exC7 : List Item :=
  [{ id := .str "temp-1", list_id := 7, text := "old", completed := false,
     notes := none, parent_id := none, position := 0 }]

/-- A temporary optimistic item that collides with the id in `exC7`. -/
def tempC7 : Item :=
  { id := .str "temp-1", list_id := 7, text := "new", completed := false,
    notes := none, parent_id := none, position := 1 }

/-- A state with one server item (witness data for the rollback claim). -/
def exC7W : List Item := [mkNumItem 1 none 1]

/-- A fresh temporary item whose id collides with nothing in `exC7W`. -/
def tempC7W : Item :=
  { id := .str "temp-9", list_id := 7, text := "Milk", completed := false,
    notes := none, parent_id := none, position := 2 }

/-- A pending temporary item plus one server item (witness data for the
`item-created` reconciliation claim). -/
def tempC8 : Item :=
  { id := .str "temp-5", list_id := 7, text := "x", completed := false,
    notes := none, parent_id := none, position := 2 }

/-- State holding the optimistic `tempC8` and one confirmed item. -/
def exC8 : List Item := [tempC8, mkNumItem 1 none 0]

/-- The server record broadcast for the pending create of `tempC8`. -/
def srvC8 : Item := mkNumItem 50 none 3

/-- A state with one item carrying locally edited notes (witness data for the
`item-updated` notes-preservation claim). -/
def exC9 : List Item := [{ mkNumItem 1 none 0 with notes := some "draft" }]

/-- The inbound server record for the item of `exC9`. -/
def srvC9 : Item := { mkNumItem 1 none 0 with text := "server", notes := some "srv" }

/-- A debounce-pending map marking item 1 as under local notes edit. -/
def pendC9 : ItemId → Bool := fun i => decide (i = ItemId.num 1)

/-- A persisted `list_items` row: the columns the update endpoint can touch,
plus `id`, `list_id`, `parent_id` and an abstract `updated_at` tick. -/
structure DbItem where
  id : Int
  list_id : Int
  text : String
  completed : Bool
  position : Int
  notes : Option String
  parent_id : Option Int
  updated_at : Nat
deriving DecidableEq

/-- The JSON body of a `PUT /api/items/:id` request.  The client's nest and
reparenting drags put `parent_id` (and `list_id`) in the body; the server
handler destructures only `text`, `completed`, `position`, `notes`. -/
structure UpdateBody where
  text : Option String
  completed : Option Bool
  position : Option Int
  notes : Option (Option String)
  parent_id : Option (Option Int)
  list_id : Option Int
deriving DecidableEq

/-- The dynamic `UPDATE` built by `PUT /api/items/:id` (server.js lines
596-667 and realtime-server.js lines 503-566): `SET updated_at = NOW()`
always, then one assignment per defined body field among `text`, `completed`,
`position`, `notes`.  No other body field is ever read. -/
def applyItemUpdate (body : UpdateBody) (now : Nat) (row : DbItem) : DbItem :=
  let r0 := { row with updated_at := now }
  let r1 := match body.text with
    | some t => { r0 with text := t }
    | none => r0
  let r2 := match body.completed with
    | some c => { r1 with completed := c }
    | none => r1
  let r3 := match body.position with
    | some p => { r2 with position := p }
    | none => r2
  match body.notes with
  | some n => { r3 with notes := n }
  | none => r3

/-- One observable step of a request handler: a database read, the mutating
database write, a socket broadcast, or the HTTP response.  The `ok` flag of a
database action records whether the query succeeded or threw (a throw jumps
to the handler's catch block). -/
inductive Act where
  | dbRead (ok : Bool)
  | dbWrite (ok : Bool)
  | emit (kind : String)
  | respond (status : Nat)
deriving DecidableEq

/-- Is the action a broadcast emission? -/
def Act.isEmit : Act → Bool
  | .emit _ => true
  | _ => false

/-- Trace of `POST /api/lists`: validate the name, insert, emit
`list-created`, respond 201; a failed insert hits catch and responds 500. -/
def createListTrace (nameOk writeOk : Bool) : List Act :=
  if !nameOk then [.respond 400]
  else if writeOk then [.dbWrite true, .emit "list-created", .respond 201]
  else [.dbWrite false, .respond 500]

/-- Trace of `PUT /api/lists/:id`: permission read (404 when absent, 403
without edit), update, emit `list-updated`, respond 200. -/
def updateListTrace (readOk found canEdit writeOk : Bool) : List Act :=
  if !readOk then [.dbRead false, .respond 500]
  else if !found then [.dbRead true, .respond 404]
  else if !canEdit then [.dbRead true, .respond 403]
  else if writeOk then [.dbRead true, .dbWrite true, .emit "list-updated", .respond 200]
  else [.dbRead true, .dbWrite false, .respond 500]

/-- Trace of `DELETE /api/lists/:id`: owner-scoped delete-returning (403 when
it matched no row), then emit `list-deleted`, respond 200. -/
def deleteListTrace (writeOk rowFound : Bool) : List Act :=
  if !writeOk then [.dbWrite false, .respond 500]
  else if !rowFound then [.dbWrite true, .respond 403]
  else [.dbWrite true, .emit "list-deleted", .respond 200]

/-- Trace of `POST /api/lists/:id/share`: owner read (403), user lookup
(400), upsert, emit `list-shared`, respond 201. -/
def shareListTrace (read1Ok ownerOk read2Ok userFound writeOk : Bool) : List Act :=
  if !read1Ok then [.dbRead false, .respond 500]
  else if !ownerOk then [.dbRead true, .respond 403]
  else if !read2Ok then [.dbRead true, .dbRead false, .respond 500]
  else if !userFound then [.dbRead true, .dbRead true, .respond 400]
  else if writeOk then
    [.dbRead true, .dbRead true, .dbWrite true, .emit "list-shared", .respond 201]
  else [.dbRead true, .dbRead true, .dbWrite false, .respond 500]

/-- Trace of `DELETE /api/lists/:listId/shares/:userId`: owner read (403),
delete, emit `share-removed`, respond 200. -/
def removeShareTrace (readOk ownerOk writeOk : Bool) : List Act :=
  if !readOk then [.dbRead false, .respond 500]
  else if !ownerOk then [.dbRead true, .respond 403]
  else if writeOk then [.dbRead true, .dbWrite true, .emit "share-removed", .respond 200]
  else [.dbRead true, .dbWrite false, .respond 500]

/-- Trace of `POST /api/lists/:listId/items`: permission read (404/403),
max-position read, insert, emit `item-created`, respond 201. -/
def createItemTrace (readOk found canEdit posReadOk writeOk : Bool) : List Act :=
  if !readOk then [.dbRead false, .respond 500]
  else if !found then [.dbRead true, .respond 404]
  else if !canEdit then [.dbRead true, .respond 403]
  else if !posReadOk then [.dbRead true, .dbRead false, .respond 500]
  else if writeOk then
    [.dbRead true, .dbRead true, .dbWrite true, .emit "item-created", .respond 201]
  else [.dbRead true, .dbRead true, .dbWrite false, .respond 500]

/-- Trace of `PUT /api/items/:id`: text validation (400), permission read
(404/403), update, emit `item-updated`, respond 200. -/
def updateItemTrace (textOk readOk found canEdit writeOk : Bool) : List Act :=
  if !textOk then [.respond 400]
  else if !readOk then [.dbRead false, .respond 500]
  else if !found then [.dbRead true, .respond 404]
  else if !canEdit then [.dbRead true, .respond 403]
  else if writeOk then [.dbRead true, .dbWrite true, .emit "item-updated", .respond 200]
  else [.dbRead true, .dbWrite false, .respond 500]

/-- Trace of `DELETE /api/items/:id`: permission read (404/403), delete, emit
`item-deleted`, respond 200. -/
def deleteItemTrace (readOk found canEdit writeOk : Bool) : List Act :=
  if !readOk then [.dbRead false, .respond 500]
  else if !found then [.dbRead true, .respond 404]
  else if !canEdit then [.dbRead true, .respond 403]
  else if writeOk then [.dbRead true, .dbWrite true, .emit "item-deleted", .respond 200]
  else [.dbRead true, .dbWrite false, .respond 500]

/-- Scan of a trace: every emission must be preceded by a successful database
write (the accumulator records whether one has been seen). -/
def emitsAfterWrite : List Act → Bool → Bool
  | [], _ => true
  | .emit _ :: rest, seen => seen && emitsAfterWrite rest seen
  | .dbWrite ok :: rest, seen => emitsAfterWrite rest (seen || ok)
  | _ :: rest, seen => emitsAfterWrite rest seen

/-- The broadcast discipline of the claim: emissions only after a successful
write, and no emission at all on an execution whose write failed. -/
def emitDiscipline (tr : List Act) : Bool :=
  emitsAfterWrite tr false &&
  (!(tr.contains (Act.dbWrite false)) || tr.all (fun a => ! a.isEmit))

/-- A stored row of `list_items` for the insert-race model. -/
structure DbRow where
  id : Int
  position : Int
deriving DecidableEq

/-- `SELECT COALESCE(MAX(position), 0)` over one list's rows. -/
def maxPosition : List DbRow → Int
  | [] => 0
  | r :: rest => rest.foldl (fun m x => max m x.position) r.position

/-- State of two concurrent `POST /api/lists/:listId/items` handlers, A and
B, against one list: the table rows, each handler's latched `next_position`
(after its `SELECT MAX(position)+1`), and each handler's returned row. -/
structure RaceState where
  db : List DbRow
  nextA : Option Int
  nextB : Option Int
  retA : Option DbRow
  retB : Option DbRow
deriving DecidableEq

/-- The atomic database statements of the two handlers: each performs its
`SELECT` and then, as a separate statement (no transaction or lock in the
code), its `INSERT`.  Ids 101 and 102 stand for the distinct SERIAL ids. -/
inductive RStep where
  | readA
  | readB
  | insertA
  | insertB
deriving DecidableEq

/-- Execute one interleaved database step. -/
def raceStep (s : RaceState) : RStep → RaceState
  | .readA => { s with nextA := some (maxPosition s.db + 1) }
  | .readB => { s with nextB := some (maxPosition s.db + 1) }
  | .insertA =>
    match s.nextA with
    | some p => { s with db := s.db ++ [⟨101, p⟩], retA := some ⟨101, p⟩ }
    | none => s
  | .insertB =>
    match s.nextB with
    | some p => { s with db := s.db ++ [⟨102, p⟩], retB := some ⟨102, p⟩ }
    | none => s

/-- Run an interleaving schedule of the two handlers. -/
def runRace (steps : List RStep) (s : RaceState) : RaceState :=
  steps.foldl raceStep s

/-- The initial table: one existing item at position 1. -/
def raceInit : RaceState :=
  { db := [⟨1, 1⟩], nextA := none, nextB := none, retA := none, retB := none }

/-- Basic fact about `findItem`: the found item carries the looked-up id. -/
theorem findItem_id {items : List Item} {i : ItemId} {it : Item}
    (h : findItem items i = some it) : it.id = i := by
  have := List.find?_some h
  simpa using this

/-- Basic fact about `findItem`: the found item is a member of the list. -/
theorem findItem_mem {items : List Item} {i : ItemId} {it : Item}
    (h : findItem items i = some it) : it ∈ items :=
  List.mem_of_find?_eq_some h

/-- In a list whose entries have pairwise-distinct ids, equal ids force equal
entries. -/
theorem eq_of_mem_of_pairwise_ids {l : List Item}
    (h : l.Pairwise (fun a b => a.id ≠ b.id)) {a b : Item}
    (ha : a ∈ l) (hb : b ∈ l) (hid : a.id = b.id) : a = b := by
  induction l with
  | nil => cases ha
  | cons x xs ih =>
    rcases List.pairwise_cons.mp h with ⟨hx, hxs⟩
    rcases List.mem_cons.mp ha with rfl | ha' <;> rcases List.mem_cons.mp hb with rfl | hb'
    · rfl
    · exact absurd hid (hx _ hb')
    · exact absurd hid.symm (hx _ ha')
    · exact ih hxs ha' hb'

/-- `findIdx` locates an element with a unique id at its actual index. -/
theorem findIdx_of_pairwise_ids :
    ∀ (l : List Item), l.Pairwise (fun a b => a.id ≠ b.id) →
      ∀ (i : Nat) (hi : i < l.length) (over : Item), l.get ⟨i, hi⟩ = over →
        l.findIdx (fun s => decide (s.id = over.id)) = i := by
  intro l
  induction l with
  | nil => intro _ i hi; cases hi
  | cons x xs ih =>
    intro hp i hi over hget
    rcases List.pairwise_cons.mp hp with ⟨hx, hxs⟩
    cases i with
    | zero =>
      simp only [List.get] at hget
      subst hget
      simp [List.findIdx_cons]
    | succ j =>
      simp only [List.get] at hget
      have hj : j < xs.length := Nat.lt_of_succ_lt_succ hi
      have hmem : over ∈ xs := hget ▸ xs.get_mem _ _
      have hne : x.id ≠ over.id := hx _ hmem
      have : xs.findIdx (fun s => decide (s.id = over.id)) = j := ih hxs j hj over hget
      simp [List.findIdx_cons, hne, this]

/-- The sorted sibling list is a permutation of the filtered item list. -/
theorem sortedSiblingsOf_perm (items : List Item) (pid : Option ItemId) :
    List.Perm (sortedSiblingsOf items pid)
      (items.filter (fun it => decide (it.parent_id = pid))) :=
  List.perm_insertionSort _ _

/-- Members of the sorted sibling list are exactly the items under `pid`. -/
theorem mem_sortedSiblingsOf {items : List Item} {pid : Option ItemId} {b : Item} :
    b ∈ sortedSiblingsOf items pid ↔ b ∈ items ∧ b.parent_id = pid := by
  rw [(sortedSiblingsOf_perm items pid).mem_iff, List.mem_filter]
  simp

/-- Ids stay pairwise distinct when passing to the sorted sibling list. -/
theorem sortedSiblingsOf_pairwise_ids {items : List Item} (pid : Option ItemId)
    (hids : items.Pairwise (fun a b => a.id ≠ b.id)) :
    (sortedSiblingsOf items pid).Pairwise (fun a b => a.id ≠ b.id) := by
  have hfil : (items.filter (fun it => decide (it.parent_id = pid))).Pairwise
      (fun a b => a.id ≠ b.id) := hids.sublist (List.filter_sublist items)
  exact ((sortedSiblingsOf_perm items pid).pairwise_iff (fun h => h.symm)).mpr hfil

/-- When sibling positions are distinct in `items`, the sorted sibling list is
strictly increasing in position. -/
theorem sortedSiblingsOf_pairwise_lt {items : List Item} (pid : Option ItemId)
    (hids : items.Pairwise (fun a b => a.id ≠ b.id))
    (hdist : siblingPositionsDistinct items) :
    (sortedSiblingsOf items pid).Pairwise (fun a b => a.position < b.position) := by
  have hle : (sortedSiblingsOf items pid).Pairwise
      (fun a b => a.position ≤ b.position) :=
    List.sorted_insertionSort _ _
  have hne : (sortedSiblingsOf items pid).Pairwise
      (fun a b => a.position ≠ b.position) := by
    have hidsS := sortedSiblingsOf_pairwise_ids pid hids
    refine hidsS.imp_of_mem ?_
    intro a b ha hb hidne
    rcases mem_sortedSiblingsOf.mp ha with ⟨ha1, ha2⟩
    rcases mem_sortedSiblingsOf.mp hb with ⟨hb1, hb2⟩
    exact hdist a ha1 b hb1 hidne (ha2.trans hb2.symm)
  exact (hle.and hne).imp (fun h => lt_of_le_of_ne h.1 h.2)

/-- Strictly increasing positions, read off through `get`. -/
theorem pairwise_lt_get {l : List Item}
    (h : l.Pairwise (fun a b => a.position < b.position))
    {j k : Nat} (hj : j < l.length) (hk : k < l.length) (hjk : j < k) :
    (l.get ⟨j, hj⟩).position < (l.get ⟨k, hk⟩).position :=
  List.pairwise_iff_get.mp h ⟨j, hj⟩ ⟨k, hk⟩ hjk

/-- Midpoint bounds: with integer headroom of at least 2, the floored midpoint
lies strictly between the flanking positions. -/
theorem fdiv_midpoint_bounds {a b : Int} (h : a + 2 ≤ b) :
    a < (a + b).fdiv 2 ∧ (a + b).fdiv 2 < b := by
  rw [Int.fdiv_eq_ediv _ (by norm_num)]
  constructor
  · have h1 : (a + 1) * 2 ≤ a + b := by omega
    have h2 := @Int.ediv_le_ediv _ _ 2 (by norm_num) h1
    rw [Int.mul_ediv_cancel _ (by norm_num)] at h2
    omega
  · have h1 : a + b ≤ (b - 1) * 2 := by omega
    have h2 := @Int.ediv_le_ediv _ _ 2 (by norm_num) h1
    rw [Int.mul_ediv_cancel _ (by norm_num)] at h2
    omega

/-- In a strictly increasing sibling list, the head has the minimal position. -/
theorem head_position_min {sibs : List Item}
    (hlt : sibs.Pairwise (fun a b => a.position < b.position))
    (h0 : 0 < sibs.length) :
    ∀ b ∈ sibs, (sibs.get ⟨0, h0⟩).position ≤ b.position := by
  intro b hb
  obtain ⟨⟨j, hj⟩, hbj⟩ := List.mem_iff_get.mp hb
  rcases Nat.eq_zero_or_pos j with rfl | hjpos
  · rw [hbj]
  · exact le_of_lt (hbj ▸ pairwise_lt_get hlt h0 hj hjpos)

/-- In a strictly increasing sibling list, the last element has the maximal
position. -/
theorem last_position_max {sibs : List Item}
    (hlt : sibs.Pairwise (fun a b => a.position < b.position))
    (hlast : sibs.length - 1 < sibs.length) :
    ∀ b ∈ sibs, b.position ≤ (sibs.get ⟨sibs.length - 1, hlast⟩).position := by
  intro b hb
  obtain ⟨⟨j, hj⟩, hbj⟩ := List.mem_iff_get.mp hb
  rcases Nat.lt_or_ge j (sibs.length - 1) with hjl | hjl
  · exact le_of_lt (hbj ▸ pairwise_lt_get hlt hj hlast hjl)
  · have : j = sibs.length - 1 := by omega
    subst this
    rw [hbj]

/-- In a strictly increasing sibling list, every element sits at or below
index `k` or at or above index `k + 1` in position. -/
theorem position_split_adjacent {sibs : List Item}
    (hlt : sibs.Pairwise (fun a b => a.position < b.position))
    {k : Nat} (hk : k < sibs.length) (hk1 : k + 1 < sibs.length) :
    ∀ b ∈ sibs, b.position ≤ (sibs.get ⟨k, hk⟩).position ∨
      (sibs.get ⟨k + 1, hk1⟩).position ≤ b.position := by
  intro b hb
  obtain ⟨⟨j, hj⟩, hbj⟩ := List.mem_iff_get.mp hb
  rcases Nat.lt_or_ge j (k + 1) with hjk | hjk
  · left
    rcases Nat.lt_or_ge j k with hjk2 | hjk2
    · exact le_of_lt (hbj ▸ pairwise_lt_get hlt hj hk hjk2)
    · have : j = k := by omega
      subst this
      rw [hbj]
  · right
    rcases Nat.eq_or_lt_of_le hjk with h1 | h1
    · rw [← hbj]
      have : (⟨k + 1, hk1⟩ : Fin sibs.length) = ⟨j, hj⟩ := by
        exact Fin.ext h1
      rw [this]
    · exact le_of_lt (hbj ▸ pairwise_lt_get hlt hk1 hj h1)

/-- Core ordering-engine lemma: on a strictly increasing sibling list with
pairwise-distinct ids, when the insertion point has integer headroom (gap of
at least 2 between the flanking positions; positive head position when
dropping above the head), the position computed by `computeNewPosition`
differs from the position of every current sibling. -/
theorem computeNewPosition_not_eq (sibs : List Item) (over : Item) (above : Bool)
    (hlt : sibs.Pairwise (fun a b => a.position < b.position))
    (hids : sibs.Pairwise (fun a b => a.id ≠ b.id))
    (i : Nat) (hi : i < sibs.length) (hover : sibs.get ⟨i, hi⟩ = over)
    (hhead : (if above then
               (if i = 0 then decide (1 ≤ over.position)
                else decide ((sibs.getD (i - 1) default).position + 2 ≤ over.position))
             else
               (if i = sibs.length - 1 then true
                else decide (over.position + 2 ≤ (sibs.getD (i + 1) default).position))) = true) :
    ∀ b ∈ sibs, b.position ≠ computeNewPosition sibs over above := by
  have hidx : sibs.findIdx (fun s => decide (s.id = over.id)) = i :=
    findIdx_of_pairwise_ids sibs hids i hi over hover
  intro b hb
  obtain ⟨⟨j, hj⟩, hbj⟩ := List.mem_iff_get.mp hb
  simp only [computeNewPosition, hidx]
  cases above with
  | true =>
    rw [if_pos rfl] at hhead ⊢
    by_cases hi0 : i = 0
    · rw [if_pos hi0] at hhead ⊢
      have hh1 : 1 ≤ over.position := of_decide_eq_true hhead
      have hmin : over.position ≤ b.position := by
        rcases Nat.eq_zero_or_pos j with rfl | hjpos
        · rw [← hover, ← hbj]
          subst hi0
          rfl
        · have h0 : (0 : Nat) < sibs.length := by omega
          have := pairwise_lt_get hlt h0 hj hjpos
          rw [hbj] at this
          have heq : sibs.get ⟨0, h0⟩ = over := by
            rw [← hover]
            exact congrArg sibs.get (Fin.ext hi0.symm)
          rw [heq] at this
          exact le_of_lt this
      have hg : max 0 (over.position - GAP) < over.position := by
        apply max_lt
        · omega
        · simp only [GAP]; omega
      exact ne_of_gt (lt_of_lt_of_le hg hmin)
    · rw [if_neg hi0] at hhead ⊢
      have hi1 : i - 1 < sibs.length := by omega
      rw [List.getD_eq_get _ _ hi1] at hhead ⊢
      obtain ⟨hm1, hm2⟩ := fdiv_midpoint_bounds (of_decide_eq_true hhead)
      rw [if_neg (by omega)]
      rcases Nat.lt_or_ge j i with hji | hji
      · have hble : b.position ≤ (sibs.get ⟨i - 1, hi1⟩).position := by
          rcases Nat.lt_or_ge j (i - 1) with h2 | h2
          · have := pairwise_lt_get hlt hj hi1 h2
            rw [hbj] at this
            exact le_of_lt this
          · have hj_eq : j = i - 1 := by omega
            rw [← hbj]
            exact le_of_eq (congrArg (fun f => (sibs.get f).position) (Fin.ext hj_eq))
        exact ne_of_lt (lt_of_le_of_lt hble hm1)
      · have hoge : over.position ≤ b.position := by
          rcases Nat.eq_or_lt_of_le hji with h2 | h2
          · rw [← hover, ← hbj]
            exact le_of_eq (congrArg (fun f => (sibs.get f).position) (Fin.ext h2))
          · have := pairwise_lt_get hlt hi hj h2
            rw [hover, hbj] at this
            exact le_of_lt this
        exact ne_of_gt (lt_of_lt_of_le hm2 hoge)
  | false =>
    rw [if_neg Bool.false_ne_true] at hhead ⊢
    by_cases hilast : i = sibs.length - 1
    · rw [if_pos hilast]
      have hble : b.position ≤ over.position := by
        rcases Nat.lt_or_ge j i with hji | hji
        · have := pairwise_lt_get hlt hj hi hji
          rw [hbj, hover] at this
          exact le_of_lt this
        · have hj_eq : j = i := by omega
          rw [← hover, ← hbj]
          exact le_of_eq (congrArg (fun f => (sibs.get f).position) (Fin.ext hj_eq))
      have : b.position < over.position + GAP := by simp only [GAP]; omega
      exact ne_of_lt this
    · rw [if_neg hilast] at hhead ⊢
      have hi1 : i + 1 < sibs.length := by omega
      rw [List.getD_eq_get _ _ hi1] at hhead ⊢
      obtain ⟨hm1, hm2⟩ := fdiv_midpoint_bounds (of_decide_eq_true hhead)
      rw [if_neg (by omega)]
      rcases Nat.lt_or_ge j (i + 1) with hji | hji
      · have hble : b.position ≤ over.position := by
          rcases Nat.lt_or_ge j i with h2 | h2
          · have := pairwise_lt_get hlt hj hi h2
            rw [hbj, hover] at this
            exact le_of_lt this
          · have hj_eq : j = i := by omega
            rw [← hover, ← hbj]
            exact le_of_eq (congrArg (fun f => (sibs.get f).position) (Fin.ext hj_eq))
        exact ne_of_lt (lt_of_le_of_lt hble hm1)
      · have hoge : (sibs.get ⟨i + 1, hi1⟩).position ≤ b.position := by
          rcases Nat.eq_or_lt_of_le hji with h2 | h2
          · rw [← hbj]
            exact le_of_eq (congrArg (fun f => (sibs.get f).position) (Fin.ext h2))
          · have := pairwise_lt_get hlt hi1 hj h2
            rw [hbj] at this
            exact le_of_lt this
        exact ne_of_gt (lt_of_lt_of_le hm2 hoge)

/-- Inversion: whenever `handleDragEnd` issues a sibling-move request, the
dragged and target items exist, the request names the dragged item, and the
requested parent and position are the target's parent and the position
computed by the ordering engine over that parent's sorted siblings. -/
theorem handleDragEnd_putMove_inv {items : List Item} {activeId overId : ItemId}
    {sk : Bool} {dx dy : Int} {a : ItemId} {pid : Option ItemId} {p : Int} {lid : Int}
    (h : handleDragEnd items activeId (some overId) sk dx dy = .putMove a pid p lid) :
    ∃ activeItem overItem,
      findItem items activeId = some activeItem ∧
      findItem items overId = some overItem ∧
      a = activeId ∧ pid = overItem.parent_id ∧ lid = overItem.list_id ∧
      isDescendant items activeItem overItem = false ∧
      p = computeNewPosition (sortedSiblingsOf items overItem.parent_id) overItem
            (decide (dy < 0)) := by
  simp only [handleDragEnd] at h
  split at h
  · exact absurd h (by simp)
  · split at h
    · exact absurd h (by simp)
    · rename_i activeItem hfa
      split at h
      · exact absurd h (by simp)
      · rename_i overItem hfo
        split at h
        · exact absurd h (by simp)
        · split at h
          · exact absurd h (by simp)
          · rename_i hdesc
            split at h
            · exact absurd h (by simp)
            · split at h
              · injection h with ha hpid hp hlid
                exact ⟨activeItem, overItem, hfa, hfo,
                  ha.symm.trans (findItem_id hfa), hpid.symm, hlid.symm,
                  by simpa using hdesc, hp.symm⟩
              · exact absurd h (by simp)

/-- C1 (amended).  A single sibling-level move issued by the drag-end position
assignment keeps sibling positions pairwise distinct, provided the insertion
point has integer headroom (flanking positions at least 2 apart when dropping
between two siblings; positive head position when dropping above the head).
Without that headroom proviso the original claim is false, see the
counterexample. -/
theorem dragEnd_putMove_keeps_sibling_positions_distinct
    (items : List Item) (activeId overId : ItemId) (sk : Bool) (dx dy : Int)
    (a : ItemId) (pid : Option ItemId) (p : Int) (lid : Int)
    (hids : items.Pairwise (fun x y => x.id ≠ y.id))
    (hdist : siblingPositionsDistinct items)
    (hput : handleDragEnd items activeId (some overId) sk dx dy = .putMove a pid p lid)
    (hheadroom : moveHasHeadroom items overId dy = true) :
    siblingPositionsDistinct (applyMove items a pid p) := by
  obtain ⟨activeItem, overItem, hfa, hfo, ha, hpid, hlid, hdesc, hp⟩ :=
    handleDragEnd_putMove_inv hput
  subst ha hpid hp
  simp only [moveHasHeadroom, hfo] at hheadroom
  have hltS := sortedSiblingsOf_pairwise_lt overItem.parent_id hids hdist
  have hidsS := @sortedSiblingsOf_pairwise_ids items overItem.parent_id hids
  have hoverMem : overItem ∈ sortedSiblingsOf items overItem.parent_id :=
    mem_sortedSiblingsOf.mpr ⟨findItem_mem hfo, rfl⟩
  obtain ⟨⟨i, hi⟩, hovget⟩ := List.mem_iff_get.mp hoverMem
  have hidx : (sortedSiblingsOf items overItem.parent_id).findIdx
      (fun s => decide (s.id = overItem.id)) = i :=
    findIdx_of_pairwise_ids _ hidsS i hi overItem hovget
  rw [hidx] at hheadroom
  have hnotin := computeNewPosition_not_eq (sortedSiblingsOf items overItem.parent_id)
    overItem (decide (dy < 0)) hltS hidsS i hi hovget hheadroom
  intro x hx y hy hxyid hxypar
  simp only [applyMove, List.mem_map] at hx hy
  obtain ⟨x0, hx0mem, rfl⟩ := hx
  obtain ⟨y0, hy0mem, rfl⟩ := hy
  by_cases hx0 : x0.id = a <;> by_cases hy0 : y0.id = a
  · exfalso
    have hxy : x0 = y0 := eq_of_mem_of_pairwise_ids hids hx0mem hy0mem (hx0.trans hy0.symm)
    subst hxy
    exact hxyid rfl
  · simp only [if_pos hx0, if_neg hy0] at hxyid hxypar ⊢
    have hymem : y0 ∈ sortedSiblingsOf items overItem.parent_id :=
      mem_sortedSiblingsOf.mpr ⟨hy0mem, hxypar.symm⟩
    exact fun he => hnotin y0 hymem he.symm
  · simp only [if_neg hx0, if_pos hy0] at hxyid hxypar ⊢
    have hxmem : x0 ∈ sortedSiblingsOf items overItem.parent_id :=
      mem_sortedSiblingsOf.mpr ⟨hx0mem, hxypar⟩
    exact hnotin x0 hxmem
  · simp only [if_neg hx0, if_neg hy0] at hxyid hxypar ⊢
    exact hdist x0 hx0mem y0 hy0mem hxyid hxypar

/-- C1 (counterexample).  Starting from the strictly increasing top-level
siblings at positions 0, 1, 5, dropping item 3 just below item 1 hits the
no-headroom fallback (midpoint 0 equals the lower flank, so position 0 + 1 is
assigned) and produces two siblings (items 2 and 3) both at position 1. -/
theorem dragEnd_putMove_sibling_position_collision :
    exC1.Pairwise (fun a b => a.position < b.position) ∧
    siblingPositionsDistinct exC1 ∧
    handleDragEnd exC1 (.num 3) (some (.num 1)) false 0 1 =
      .putMove (.num 3) none 1 7 ∧
    ¬ siblingPositionsDistinct (applyMove exC1 (.num 3) none 1) :=
  ⟨by decide, by decide, by decide, by decide⟩

/-- Witness for C1 (amended): a concrete headroom-respecting move (item 3
dropped below item 1 among positions 0, 10, 100 lands at midpoint 5) keeps
sibling positions distinct. -/
theorem dragEnd_putMove_keeps_sibling_positions_distinct_witness :
    siblingPositionsDistinct (applyMove exC1W (.num 3) none 5) :=
  dragEnd_putMove_keeps_sibling_positions_distinct exC1W (.num 3) (.num 1) false 0 1
    (.num 3) none 5 7 (by decide) (by decide) (by decide) (by decide)

/-- C2.  Dropping an item onto one of its own descendants (by the client's
`isDescendant` parent-chain walk) is rejected with the distinct error message
`Cannot move item into its own sub-item`, whatever the drop intent (shift key
or horizontal delta, i.e. nest or sibling): no `PUT` request of any kind is
produced, so the dragged item's parent and position are untouched. -/
theorem dragEnd_rejects_drop_on_descendant
    (items : List Item) (aId oId : ItemId) (A B : Item) (sk : Bool) (dx dy : Int)
    (hA : findItem items aId = some A) (hB : findItem items oId = some B)
    (hne : aId ≠ oId)
    (hdesc : isDescendant items A B = true) :
    handleDragEnd items aId (some oId) sk dx dy =
      .error "Cannot move item into its own sub-item" := by
  have hAid := findItem_id hA
  have hBid := findItem_id hB
  simp only [handleDragEnd, hA, hB]
  rw [if_neg hne]
  rw [if_neg (show ¬(A.id = B.id) from fun h => hne ((hAid.symm.trans h).trans hBid))]
  rw [if_pos hdesc]

/-- Witness for C2: in the concrete list where item 2 is a child of item 1,
dropping item 1 onto item 2 with nest intent (shift held) yields exactly the
cycle error. -/
theorem dragEnd_rejects_drop_on_descendant_witness :
    handleDragEnd exC2W (.num 1) (some (.num 2)) true 100 0 =
      .error "Cannot move item into its own sub-item" :=
  dragEnd_rejects_drop_on_descendant exC2W (.num 1) (.num 2) (mkNumItem 1 none 0)
    (mkNumItem 2 (some (.num 1)) 1) true 100 0 (by decide) (by decide) (by decide)
    (by decide)

/-- C3 (amended).  Every sibling-move request issued by `handleDragEnd`
carries the position dictated by the spec's formula over the two flanking
positions: floored midpoint, lower-flank-plus-one fallback, tail plus 1000
below the end — and, amended from the claim, `max 0 (head - 1000)` (clamped
at zero) above the head rather than `head - 1000`. -/
theorem dragEnd_putMove_satisfies_position_contract
    (items : List Item) (activeId overId : ItemId) (sk : Bool) (dx dy : Int)
    (a : ItemId) (pid : Option ItemId) (p lid : Int)
    (hput : handleDragEnd items activeId (some overId) sk dx dy = .putMove a pid p lid) :
    ∃ overItem, findItem items overId = some overItem ∧
      specDragPositionContract (sortedSiblingsOf items overItem.parent_id) overItem dy p := by
  obtain ⟨activeItem, overItem, hfa, hfo, ha, hpid, hlid, hdesc, hp⟩ :=
    handleDragEnd_putMove_inv hput
  subst hp
  refine ⟨overItem, hfo, ?_⟩
  simp only [specDragPositionContract, computeNewPosition, midpointOrAdjacent, GAP]
  split_ifs <;> rfl

/-- C3 (counterexample).  Dropping above a head sibling at position 500, the
code assigns `max 0 (500 - 1000) = 0`, not the claimed `500 - 1000 = -500`. -/
theorem dragEnd_aboveHead_position_clamped_not_minus_gap :
    handleDragEnd exC3 (.num 2) (some (.num 1)) false 0 (-1) =
      .putMove (.num 2) none 0 7 ∧
    (0 : Int) ≠ 500 - GAP :=
  ⟨by decide, by decide⟩

/-- Witness for C3 (amended): the concrete move of item 3 below item 1 among
positions 0, 10, 100 is assigned position 5 = floor((0 + 10) / 2), meeting the
contract. -/
theorem dragEnd_putMove_satisfies_position_contract_witness :
    ∃ overItem, findItem exC3W (.num 1) = some overItem ∧
      specDragPositionContract (sortedSiblingsOf exC3W overItem.parent_id) overItem 1 5 :=
  dragEnd_putMove_satisfies_position_contract exC3W (.num 3) (.num 1) false 0 1
    (.num 3) none 5 7 (by decide)

/-- Helper: once an item with the broadcast id is present, the
`item-created` handler is the identity. -/
theorem itemCreatedHandler_of_isSome {sel : Option Int} {listId : Int}
    {srvItem : Item} {r : List Item} (hsel : sel = some listId)
    (hr : (r.find? (fun it => decide (it.id = srvItem.id))).isSome = true) :
    itemCreatedHandler sel listId srvItem r = r := by
  unfold itemCreatedHandler
  rw [if_pos hsel, if_pos hr]

/-- C6.  Applying any of the three item socket handlers twice to an items
state yields the same state as applying it once (reconciliation is
idempotent), for every selected list, broadcast payload, pending-debounce map
and starting state. -/
theorem socket_item_handlers_idempotent :
    ∀ (sel : Option Int) (listId : Int) (srvItem : Item)
      (pendingNotes : ItemId → Bool) (delId : ItemId) (st : List Item),
      itemCreatedHandler sel listId srvItem (itemCreatedHandler sel listId srvItem st) =
        itemCreatedHandler sel listId srvItem st ∧
      itemUpdatedHandler sel listId srvItem pendingNotes
          (itemUpdatedHandler sel listId srvItem pendingNotes st) =
        itemUpdatedHandler sel listId srvItem pendingNotes st ∧
      itemDeletedHandler sel listId delId (itemDeletedHandler sel listId delId st) =
        itemDeletedHandler sel listId delId st := by
  intro sel listId srvItem pendingNotes delId st
  refine ⟨?_, ?_, ?_⟩
  · by_cases hsel : sel = some listId
    · cases hex : (st.find? (fun it => decide (it.id = srvItem.id))).isSome with
      | true =>
        have hr := itemCreatedHandler_of_isSome hsel hex
        rw [hr]
        exact hr
      | false =>
        cases htemp : st.find? (isTempTextMatch srvItem.text) with
        | some tempItem =>
          have hr : itemCreatedHandler sel listId srvItem st =
              st.map (fun it => if it.id = tempItem.id then srvItem else it) := by
            unfold itemCreatedHandler
            rw [if_pos hsel, if_neg (by rw [hex]; exact Bool.false_ne_true), htemp]
          rw [hr]
          apply itemCreatedHandler_of_isSome hsel
          refine List.find?_isSome.mpr ⟨srvItem, ?_, by simp⟩
          exact List.mem_map.mpr ⟨tempItem, List.mem_of_find?_eq_some htemp, by simp⟩
        | none =>
          have hr : itemCreatedHandler sel listId srvItem st =
              sortByPosition (st ++ [srvItem]) := by
            unfold itemCreatedHandler
            rw [if_pos hsel, if_neg (by rw [hex]; exact Bool.false_ne_true), htemp]
          rw [hr]
          apply itemCreatedHandler_of_isSome hsel
          refine List.find?_isSome.mpr ⟨srvItem, ?_, by simp⟩
          exact (List.perm_insertionSort _ _).mem_iff.mpr (by simp)
    · simp only [itemCreatedHandler, if_neg hsel]
  · by_cases hsel : sel = some listId
    · simp only [itemUpdatedHandler, if_pos hsel, List.map_map]
      refine List.map_congr_left ?_
      intro it _
      simp only [Function.comp_apply]
      by_cases h : it.id = srvItem.id
      · by_cases hp : pendingNotes it.id
        · have hp' : pendingNotes srvItem.id = true := h ▸ hp
          simp [h, hp, hp']
        · have hp' : pendingNotes srvItem.id = false := by
            rw [← h]; simpa using hp
          simp [h, hp']
      · simp [h]
    · simp only [itemUpdatedHandler, if_neg hsel]
  · by_cases hsel : sel = some listId
    · simp only [itemDeletedHandler, if_pos hsel]
      by_cases hlen :
          (st.filter (fun it => ! looseIdEq it.id delId)).length ≠ st.length
      · rw [if_pos hlen]
        have hff : ((st.filter (fun it => ! looseIdEq it.id delId)).filter
            (fun it => ! looseIdEq it.id delId)) =
            st.filter (fun it => ! looseIdEq it.id delId) := by
          rw [List.filter_filter]
          simp [Bool.and_self]
        rw [hff]
        rw [if_neg (by exact fun hc => hc rfl)]
      · rw [if_neg hlen]
        rw [if_neg hlen]
    · simp only [itemDeletedHandler, if_neg hsel]

/-- C8.  When an `item-created` broadcast for the selected list arrives and no
item with the server id is present: if a pending temporary item (string id
starting with `temp-`) with the same text exists, the handler replaces the
first such temporary item in place with the server record; otherwise the
server record is appended and the list re-sorted by position. -/
theorem itemCreated_adopts_temp_or_appends
    (sel : Option Int) (listId : Int) (srvItem : Item) (st : List Item)
    (hsel : sel = some listId)
    (hnew : st.find? (fun it => decide (it.id = srvItem.id)) = none) :
    (∀ tempItem, st.find? (isTempTextMatch srvItem.text) = some tempItem →
      itemCreatedHandler sel listId srvItem st =
        st.map (fun it => if it.id = tempItem.id then srvItem else it)) ∧
    (st.find? (isTempTextMatch srvItem.text) = none →
      itemCreatedHandler sel listId srvItem st = sortByPosition (st ++ [srvItem])) := by
  constructor
  · intro tempItem htemp
    unfold itemCreatedHandler
    rw [if_pos hsel, if_neg (by rw [hnew]; exact Bool.false_ne_true), htemp]
  · intro htemp
    unfold itemCreatedHandler
    rw [if_pos hsel, if_neg (by rw [hnew]; exact Bool.false_ne_true), htemp]

/-- Witness for C8: the broadcast record with server id 50 and text `x`
replaces the pending `temp-5` item in place. -/
theorem itemCreated_adopts_temp_or_appends_witness :
    itemCreatedHandler (some 7) 7 srvC8 exC8 = [srvC8, mkNumItem 1 none 0] := by
  have h := (itemCreated_adopts_temp_or_appends (some 7) 7 srvC8 exC8 rfl
    (by decide)).1 tempC8 (by decide)
  rw [h]
  decide

/-- C9.  For an `item-updated` broadcast on the selected list hitting the item
at index `i`: when a notes debounce is pending for that item the handler
installs the full server record except `notes`, which keeps its local value;
when no debounce is pending the server record replaces the item wholesale. -/
theorem itemUpdated_preserves_pending_notes
    (sel : Option Int) (listId : Int) (srvItem : Item)
    (pendingNotes : ItemId → Bool) (st : List Item) (i : Nat)
    (hsel : sel = some listId)
    (hi : i < st.length)
    (hid : (st.getD i default).id = srvItem.id) :
    (itemUpdatedHandler sel listId srvItem pendingNotes st).getD i default =
      (if pendingNotes srvItem.id then
        { srvItem with notes := (st.getD i default).notes }
       else srvItem) := by
  subst hsel
  have hunf : itemUpdatedHandler (some listId) listId srvItem pendingNotes st =
      st.map (fun it =>
        if it.id = srvItem.id then
          (if pendingNotes it.id then { srvItem with notes := it.notes } else srvItem)
        else it) := by
    unfold itemUpdatedHandler
    rw [if_pos rfl]
  rw [List.getD_eq_getElem _ _ hi] at hid
  rw [hunf, List.getD_eq_getElem _ _ (by simpa using hi), List.getElem_map,
      List.getD_eq_getElem _ _ hi]
  simp [hid]

/-- Witness for C9: with a debounce pending on item 1, the inbound record's
text is applied but the locally edited notes survive. -/
theorem itemUpdated_preserves_pending_notes_witness :
    (itemUpdatedHandler (some 7) 7 srvC9 pendC9 exC9).getD 0 default =
      (if pendC9 srvC9.id then
        { srvC9 with notes := (exC9.getD 0 default).notes }
       else srvC9) :=
  itemUpdated_preserves_pending_notes (some 7) 7 srvC9 pendC9 exC9 0 rfl
    (by decide) (by decide)

/-- C7 (amended).  If the `createItem` request fails after the optimistic
insert of a temporary item whose id occurs nowhere in the pre-call state, the
rollback filter restores exactly the pre-call item list (same items, same
order) and a non-empty error message is surfaced.  The freshness proviso is
forced: see the counterexample, where a pre-existing item sharing the
temporary id is also removed. -/
theorem createItem_rollback_restores_state
    (st : List Item) (tempItem : Item) (status403 : Bool)
    (hfresh : ∀ it ∈ st, it.id ≠ tempItem.id) :
    (createItemFailure st tempItem status403).1 = st ∧
    ((createItemFailure st tempItem status403).2 =
        "You only have view permission for this list" ∨
      (createItemFailure st tempItem status403).2 = "Failed to create item") := by
  constructor
  · show createItemRollback (optimisticCreate st tempItem) tempItem.id = st
    unfold createItemRollback optimisticCreate
    rw [List.filter_append]
    have h1 : st.filter (fun it => decide (it.id ≠ tempItem.id)) = st :=
      List.filter_eq_self.mpr (fun a ha => by simpa using hfresh a ha)
    have h2 : [tempItem].filter (fun it => decide (it.id ≠ tempItem.id)) = [] := by
      simp
    rw [h1, h2, List.append_nil]
  · unfold createItemFailure
    cases status403
    · right; rfl
    · left; rfl

/-- C7 (counterexample).  If the pre-call state already holds an item with the
same temporary id (two optimistic creates in the same millisecond produce the
same `temp-<Date.now()>` id), the rollback filter removes both items, so the
state does not return to its pre-call value. -/
theorem createItem_rollback_can_drop_existing_item :
    (createItemFailure exC7 tempC7 false).1 = [] ∧ exC7 ≠ [] :=
  ⟨by decide, by decide⟩

/-- Witness for C7 (amended): rolling back a fresh `temp-9` item restores the
one-element pre-call state exactly and surfaces the generic failure text. -/
theorem createItem_rollback_restores_state_witness :
    (createItemFailure exC7W tempC7W false).1 = exC7W ∧
    ((createItemFailure exC7W tempC7W false).2 =
        "You only have view permission for this list" ∨
      (createItemFailure exC7W tempC7W false).2 = "Failed to create item") :=
  createItem_rollback_restores_state exC7W tempC7W false (by decide)

/-- C10.  The item-update endpoint can change only the `text`, `completed`,
`position` and `notes` columns (plus `updated_at`): for every request body —
including one carrying `parent_id`, which is exactly what the client's
nest/reparent drag sends — the persisted `id`, `list_id` and `parent_id` are
unchanged, and a body carrying only `parent_id`/`list_id` (the nest request)
changes nothing but the timestamp. -/
theorem updateItem_never_changes_parent (body : UpdateBody) (now : Nat) (row : DbItem) :
    (applyItemUpdate body now row).parent_id = row.parent_id ∧
    (applyItemUpdate body now row).id = row.id ∧
    (applyItemUpdate body now row).list_id = row.list_id ∧
    (∀ pid lid,
      applyItemUpdate
        { text := none, completed := none, position := none, notes := none,
          parent_id := some pid, list_id := some lid } now row =
        { row with updated_at := now }) := by
  rcases body with ⟨t, c, p, n, pa, li⟩
  refine ⟨?_, ?_, ?_, fun pid lid => rfl⟩ <;>
    · unfold applyItemUpdate
      cases t <;> cases c <;> cases p <;> cases n <;> rfl

/-- C5.  In each of the eight mutating request handlers (item create, item
update, item delete, list create, list update, list delete, share grant,
share revoke), the broadcast is emitted only after the mutating database
write has completed successfully, and executions whose write fails emit no
event at all — for every combination of query outcomes. -/
theorem broadcast_only_after_successful_write :
    ∀ b1 b2 b3 b4 b5 : Bool,
      emitDiscipline (createItemTrace b1 b2 b3 b4 b5) = true ∧
      emitDiscipline (updateItemTrace b1 b2 b3 b4 b5) = true ∧
      emitDiscipline (deleteItemTrace b1 b2 b3 b4) = true ∧
      emitDiscipline (createListTrace b1 b2) = true ∧
      emitDiscipline (updateListTrace b1 b2 b3 b4) = true ∧
      emitDiscipline (deleteListTrace b1 b2) = true ∧
      emitDiscipline (shareListTrace b1 b2 b3 b4 b5) = true ∧
      emitDiscipline (removeShareTrace b1 b2 b3) = true := by
  decide

/-- C4 (code bug).  Interleaving two concurrent item creations on the same
list as read-read-insert-insert makes both handlers latch `next_position = 2`
and insert it: two distinct items come back with the same position, violating
the claimed per-list serialization.  The fully serialized schedule of the
same two requests yields the distinct positions 2 and 3. -/
theorem concurrent_createItem_positions_collide :
    (runRace [.readA, .readB, .insertA, .insertB] raceInit).retA = some ⟨101, 2⟩ ∧
    (runRace [.readA, .readB, .insertA, .insertB] raceInit).retB = some ⟨102, 2⟩ ∧
    (runRace [.readA, .insertA, .readB, .insertB] raceInit).retA = some ⟨101, 2⟩ ∧
    (runRace [.readA, .insertA, .readB, .insertB] raceInit).retB = some ⟨102, 3⟩ := by
  decide
